import Mathlib

/-!
Terminal file explorer (`src/terminal_explorer.cpp`)

A shallow embedding of the `FileExplorer` class and of the command loop of `main`.

* A `std::string` is a Lean `String`, read as its sequence of characters (`String.data`).
* The filesystem the program talks to through `std::filesystem` is a finite table of
  directory entries keyed by their canonical absolute path; the root directory is implicit.
  There are no symbolic links and no access rights in the table, so `canonical` is the
  resolution of `.` and `..` and a directory can always be opened once it exists.
* A member function of `FileExplorer` becomes a function from the filesystem and the
  object's fields to a `Run`: the filesystem and fields afterwards, the lines written to
  `std::cerr`, and the exception that left the function, if one did.
* `fs::create_directories`, `fs::copy` and `fs::rename`, used by `copyFile` and `moveFile`
  only, are parameters of these two functions. The command loop is generic in the six
  operations it dispatches to.
-/

namespace TerminalExplorer

/-! ## `std::string` -/

/-- The call `s.substr(pos, count)`; `none` stands for the `std::out_of_range` thrown when
`pos > s.size()`. -/
def substr (s : String) (pos count : Nat) : Option String :=
  if pos ≤ s.data.length then some ⟨(s.data.drop pos).take count⟩ else none

/-- The call `s.substr(pos)`; `none` stands for the `std::out_of_range` thrown when `pos > s.size()`. -/
def substrFrom (s : String) (pos : Nat) : Option String :=
  if pos ≤ s.data.length then some ⟨s.data.drop pos⟩ else none

/-- Scan for `ch`; `i` is the index of the head of the list in the whole string. -/
def findCharFrom (ch : Char) : List Char → Nat → Option Nat
  | [], _ => none
  | c :: cs, i => if c = ch then some i else findCharFrom ch cs (i + 1)

/-- The call `s.find(ch, pos)`; `none` stands for `std::string::npos`. -/
def findChar (s : String) (ch : Char) (pos : Nat) : Option Nat :=
  findCharFrom ch (s.data.drop pos) pos

/-- Whether the first list is an initial segment of the second. -/
def startsWith {α : Type} [DecidableEq α] : List α → List α → Bool
  | [], _ => true
  | _ :: _, [] => false
  | p :: ps, c :: cs => if p = c then startsWith ps cs else false

/-- Scan for the first position at which `pattern` starts. -/
def findStrFrom (pattern : List Char) : List Char → Nat → Option Nat
  | [], i => if startsWith pattern [] then some i else none
  | c :: cs, i =>
    if startsWith pattern (c :: cs) then some i else findStrFrom pattern cs (i + 1)

/-- The call `s.find(pattern)`; `none` stands for `std::string::npos`. -/
def findStr (s pattern : String) : Option Nat :=
  findStrFrom pattern.data s.data 0

/-- The test `a < b` on `std::string`: lexicographic comparison of the character values, a proper
initial segment being smaller. -/
def strLess : List Char → List Char → Bool
  | _, [] => false
  | [], _ :: _ => true
  | a :: as, b :: bs =>
    if a < b then true
    else if b < a then false
    else strLess as bs

/-! ## `std::sort` -/

/-- Insert `x` in front of the first element it is smaller than. -/
def insertSorted {α : Type} (less : α → α → Bool) (x : α) : List α → List α
  | [] => [x]
  | y :: ys => if less x y then x :: y :: ys else y :: insertSorted less x ys

/-- The call `std::sort(first, last, less)`, as insertion sort driven by the caller's comparator. -/
def stdSort {α : Type} (less : α → α → Bool) (l : List α) : List α :=
  l.foldr (insertSorted less) []

/-! ## `std::filesystem` -/

/-- A canonical absolute path: the names from the root downwards. -/
abbrev Path := List String

/-- A `fs::directory_entry`: the path of a filesystem object and whether it is a directory. -/
structure DirEntry where
  path : Path
  isDirectory : Bool
deriving DecidableEq, Repr

/-- The filesystem: one entry for every object other than the root directory. -/
abbrev FileSystem := List DirEntry

/-- The call `p.filename()`: the last name of a path. -/
def filename : Path → String
  | [] => ""
  | [name] => name
  | _ :: next :: rest => filename (next :: rest)

/-- The call `p.string()` of a canonical absolute path. -/
def pathString (p : Path) : String :=
  "/" ++ "/".intercalate p

/-- The kind of the object at a canonical path: `some true` for a directory, `some false`
for any other object, `none` when there is no such object. -/
def status (fs : FileSystem) (p : Path) : Option Bool :=
  if p = [] then some true
  else (fs.find? (fun e => decide (e.path = p))).map DirEntry.isDirectory

/-- The pieces of a path string between its `/` separators. -/
def splitPath : List Char → List (List Char)
  | [] => [[]]
  | c :: cs =>
    match splitPath cs with
    | [] => [[]]
    | w :: ws => if c = '/' then [] :: w :: ws else (c :: w) :: ws

/-- The components of a path string. -/
def components (s : String) : List String :=
  (splitPath s.data).map String.mk

/-- The path `currentPath / p`, as the components to walk from the root: an absolute `p` replaces
the left operand, any other `p` is appended to it. -/
def joinPath (currentPath : Path) (p : String) : List String :=
  if p.data.head? = some '/' then components p else currentPath ++ components p

/-- One step of path resolution: from directory `here`, follow component `c`. -/
def lookupStep (fs : FileSystem) (here : Option Path) (c : String) : Option Path :=
  here.bind fun p =>
    if status fs p = some true then
      if c = "" ∨ c = "." then some p
      else if c = ".." then some p.dropLast
      else if (status fs (p ++ [c])).isSome then some (p ++ [c])
      else none
    else none

/-- Resolve a component sequence from the root; `none` when the path names no object. -/
def resolve (fs : FileSystem) (raw : List String) : Option Path :=
  raw.foldl (lookupStep fs) (some [])

/-- The call `fs::exists(p)`. -/
def fsExists (fs : FileSystem) (raw : List String) : Bool :=
  (resolve fs raw).isSome

/-- The call `fs::is_directory(p)`; false when `p` names no object. -/
def fsIsDirectory (fs : FileSystem) (raw : List String) : Bool :=
  (resolve fs raw).bind (status fs) = some true

/-- The call `fs::canonical(p)`; throws when `p` names no object. -/
def canonical (fs : FileSystem) (raw : List String) : Except String Path :=
  match resolve fs raw with
  | some p => .ok p
  | none => .error "filesystem error: cannot make canonical path: No such file or directory"

/-- The objects directly inside directory `dir`. -/
def children (fs : FileSystem) (dir : Path) : List DirEntry :=
  fs.filter (fun e => decide (e.path ≠ [] ∧ e.path.dropLast = dir))

/-- The objects strictly below directory `dir`. -/
def descendants (fs : FileSystem) (dir : Path) : List DirEntry :=
  fs.filter (fun e => startsWith dir e.path && decide (e.path ≠ dir))

/-- The range `fs::directory_iterator(dir)`, run to its end; throws when `dir` is not a directory. -/
def directoryIterator (fs : FileSystem) (dir : Path) : Except String (List DirEntry) :=
  if status fs dir = some true then .ok (children fs dir)
  else .error "filesystem error: directory iterator cannot open directory"

/-- The range `fs::recursive_directory_iterator(dir)`, run to its end; throws when `dir` is not a
directory. -/
def recursiveDirectoryIterator (fs : FileSystem) (dir : Path) :
    Except String (List DirEntry) :=
  if status fs dir = some true then .ok (descendants fs dir)
  else .error "filesystem error: recursive directory iterator cannot open directory"

/-- A path without the empty components a trailing `/` leaves behind. -/
def dropTrailingSlashes (raw : List String) : List String :=
  (raw.reverse.dropWhile (fun c => decide (c = ""))).reverse

/-- Whether the last name of a path is `.` or `..`. -/
def endsInDot (raw : List String) : Bool :=
  let name := filename (dropTrailingSlashes raw)
  decide (name = "." ∨ name = "..")

/-- The call `fs::create_directory(p)`: an existing directory is left alone without an error
(result `false`); a new directory needs an existing parent directory and a free name. -/
def createDirectoryFs (fs : FileSystem) (raw : List String) :
    Except String (FileSystem × Bool) :=
  match resolve fs raw with
  | some p =>
    if status fs p = some true then .ok (fs, false)
    else .error "filesystem error: cannot create directory: File exists"
  | none =>
    let target := dropTrailingSlashes raw
    match resolve fs target.dropLast with
    | some parent =>
      let name := filename target
      if status fs parent = some true ∧ name ≠ "" ∧ name ≠ "." ∧ name ≠ ".."
          ∧ status fs (parent ++ [name]) = none then
        .ok (fs ++ [⟨parent ++ [name], true⟩], true)
      else .error "filesystem error: cannot create directory: Not a directory"
    | none => .error "filesystem error: cannot create directory: No such file or directory"

/-- The call `fs::remove_all(p)`: the filesystem afterwards and the exception thrown, if any. A
missing `p` is not an error. The root, and a path ending in `.` or `..`, lose their contents
and then fail to be removed themselves. -/
def removeAllFs (fs : FileSystem) (raw : List String) : FileSystem × Option String :=
  match resolve fs raw with
  | none => (fs, none)
  | some p =>
    if status fs p = some true then
      if p = [] ∨ endsInDot raw = true then
        (fs.filter (fun e => !(startsWith p e.path) || decide (e.path = p)),
          some "filesystem error: cannot remove all: Invalid argument")
      else (fs.filter (fun e => !(startsWith p e.path)), none)
    else (fs.filter (fun e => decide (e.path ≠ p)), none)

/-- Whether resolving `raw` from `here` has to walk through an object that is not a
directory: the `ENOTDIR` failure, as opposed to the `ENOENT` of a missing name. -/
def blockedByFile (fs : FileSystem) : Option Path → List String → Bool
  | _, [] => false
  | none, _ :: _ => false
  | some p, c :: cs =>
    if status fs p = some false then true
    else blockedByFile fs (lookupStep fs (some p) c) cs

/-- The call `fs::remove(p)`, as by POSIX `remove`: result `false`, and no error, when no
object has the name `p` (`ENOENT`); an error when the path to `p` runs through an object
that is not a directory (`ENOTDIR`); a directory is removed only when it is empty. -/
def removeFs (fs : FileSystem) (raw : List String) : Except String (FileSystem × Bool) :=
  match resolve fs raw with
  | none =>
    if blockedByFile fs (some []) raw then
      .error "filesystem error: cannot remove: Not a directory"
    else .ok (fs, false)
  | some p =>
    if status fs p = some true then
      if p = [] ∨ endsInDot raw = true then
        .error "filesystem error: cannot remove: Invalid argument"
      else if (children fs p).isEmpty then .ok (fs.filter (fun e => decide (e.path ≠ p)), true)
      else .error "filesystem error: cannot remove: Directory not empty"
    else .ok (fs.filter (fun e => decide (e.path ≠ p)), true)

/-! ## `FileExplorer` -/

/-- The data members of `FileExplorer`. -/
structure FileExplorer where
  currentPath : Path
  currentEntries : List DirEntry
deriving DecidableEq, Repr

/-- What a call of a member function leaves behind: the filesystem, the object's fields,
the lines written to `std::cerr`, and the exception that escaped the call, if any. -/
structure Run where
  fs : FileSystem
  explorer : FileExplorer
  cerr : List String
  uncaught : Option String
deriving DecidableEq, Repr

/-- The comparator handed to `std::sort` in `listDirectory`. -/
def entryLess (a b : DirEntry) : Bool :=
  if a.isDirectory != b.isDirectory then a.isDirectory
  else strLess (filename a.path).data (filename b.path).data

/-- The member `FileExplorer::listDirectory`: the fields afterwards and the exception thrown by the
directory iterator, if any. The entries are cleared before the directory is opened. -/
def listDirectory (fs : FileSystem) (ex : FileExplorer) : FileExplorer × Option String :=
  let cleared : FileExplorer := { ex with currentEntries := [] }
  match directoryIterator fs cleared.currentPath with
  | .error what => (cleared, some what)
  | .ok entries =>
    ({ cleared with currentEntries := stdSort entryLess (cleared.currentEntries ++ entries) },
      none)

/-- The member `FileExplorer::changeDirectory`. There is no handler in this function: an exception
from `canonical` or `listDirectory` escapes it. -/
def changeDirectory (fs : FileSystem) (ex : FileExplorer) (path : String) : Run :=
  let newPath := joinPath ex.currentPath path
  if fsExists fs newPath && fsIsDirectory fs newPath then
    match canonical fs newPath with
    | .error what => ⟨fs, ex, [], some what⟩
    | .ok p =>
      match listDirectory fs { ex with currentPath := p } with
      | (ex1, none) => ⟨fs, ex1, [], none⟩
      | (ex1, some what) => ⟨fs, ex1, [], some what⟩
  else ⟨fs, ex, ["Directory not found: " ++ path], none⟩

/-- The member `FileExplorer::createDirectory`. -/
def createDirectory (fs : FileSystem) (ex : FileExplorer) (name : String) : Run :=
  match createDirectoryFs fs (joinPath ex.currentPath name) with
  | .error what => ⟨fs, ex, ["Error creating directory: " ++ what], none⟩
  | .ok (fs1, _) =>
    match listDirectory fs1 ex with
    | (ex1, none) => ⟨fs1, ex1, [], none⟩
    | (ex1, some what) => ⟨fs1, ex1, ["Error creating directory: " ++ what], none⟩

/-- The member `FileExplorer::removeFile`. -/
def removeFile (fs : FileSystem) (ex : FileExplorer) (name : String) : Run :=
  let target := joinPath ex.currentPath name
  let removed : FileSystem × Option String :=
    if fsIsDirectory fs target then removeAllFs fs target
    else
      match removeFs fs target with
      | .ok (fs1, _) => (fs1, none)
      | .error what => (fs, some what)
  match removed with
  | (fs1, some what) => ⟨fs1, ex, ["Error removing: " ++ what], none⟩
  | (fs1, none) =>
    match listDirectory fs1 ex with
    | (ex1, none) => ⟨fs1, ex1, [], none⟩
    | (ex1, some what) => ⟨fs1, ex1, ["Error removing: " ++ what], none⟩

/-- The option passed to `fs::copy`. -/
inductive CopyOptions where
  | recursive
  | overwriteExisting
deriving DecidableEq, Repr

/-- The three `std::filesystem` operations that only `copyFile` and `moveFile` use. Each
maps a filesystem to the filesystem afterwards and the exception thrown, if any; nothing
more is fixed about them. -/
structure CopyMoveOps where
  createDirectories : FileSystem → List String → FileSystem × Option String
  copy : FileSystem → List String → List String → CopyOptions → FileSystem × Option String
  rename : FileSystem → List String → List String → FileSystem × Option String

/-- The member `FileExplorer::copyFile`. -/
def copyFile (ops : CopyMoveOps) (fs : FileSystem) (ex : FileExplorer) (src dest : String) :
    Run :=
  let sourcePath :=
    if src.data.head? = some '/' then components src else joinPath ex.currentPath src
  let destPath :=
    if dest.data.head? = some '/' then components dest else joinPath ex.currentPath dest
  let copied : FileSystem × Option String :=
    if fsIsDirectory fs sourcePath then
      match ops.createDirectories fs destPath with
      | (fs1, some what) => (fs1, some what)
      | (fs1, none) => ops.copy fs1 sourcePath destPath .recursive
    else ops.copy fs sourcePath destPath .overwriteExisting
  match copied with
  | (fs1, some what) => ⟨fs1, ex, ["Error copying: " ++ what], none⟩
  | (fs1, none) =>
    match listDirectory fs1 ex with
    | (ex1, none) => ⟨fs1, ex1, [], none⟩
    | (ex1, some what) => ⟨fs1, ex1, ["Error copying: " ++ what], none⟩

/-- The member `FileExplorer::moveFile`. -/
def moveFile (ops : CopyMoveOps) (fs : FileSystem) (ex : FileExplorer) (src dest : String) :
    Run :=
  let sourcePath :=
    if src.data.head? = some '/' then components src else joinPath ex.currentPath src
  let destPath :=
    if dest.data.head? = some '/' then components dest else joinPath ex.currentPath dest
  match ops.rename fs sourcePath destPath with
  | (fs1, some what) => ⟨fs1, ex, ["Error moving: " ++ what], none⟩
  | (fs1, none) =>
    match listDirectory fs1 ex with
    | (ex1, none) => ⟨fs1, ex1, [], none⟩
    | (ex1, some what) => ⟨fs1, ex1, ["Error moving: " ++ what], none⟩

/-- The three ways a call started from explorer `ex` can end when every failure is
contained: no exception escapes and Current Path is kept, and either nothing is reported
and the listing is freshly rebuilt, or one line is reported and the explorer is untouched,
or one line is reported because the refresh could not open Current Path, and the listing
is empty. -/
def Contained (ex : FileExplorer) (r : Run) : Prop :=
  r.uncaught = none ∧ r.explorer.currentPath = ex.currentPath ∧
    ((r.cerr = [] ∧ listDirectory r.fs ex = (r.explorer, none)) ∨
      (r.cerr.length = 1 ∧ r.explorer = ex) ∨
      (r.cerr.length = 1 ∧ r.explorer = ⟨ex.currentPath, []⟩ ∧
        status r.fs ex.currentPath ≠ some true))

instance (ex : FileExplorer) (r : Run) : Decidable (Contained ex r) :=
  inferInstanceAs (Decidable (_ ∧ _ ∧ (_ ∨ _ ∨ _)))

/-- The loop of `FileExplorer::search`: the paths printed so far and the match count. -/
def searchLoop (pattern : String) : List DirEntry → List String × Nat → List String × Nat
  | [], acc => acc
  | entry :: rest, (printed, count) =>
    if (findStr (filename entry.path) pattern).isSome then
      searchLoop pattern rest (printed ++ [pathString entry.path], count + 1)
    else searchLoop pattern rest (printed, count)

/-- The member `FileExplorer::search`: the paths printed, in order, and the count of the final line.
An exception from the recursive iterator escapes the function. -/
def search (fs : FileSystem) (ex : FileExplorer) (pattern : String) :
    Except String (List String × Nat) :=
  match recursiveDirectoryIterator fs ex.currentPath with
  | .error what => .error what
  | .ok entries => .ok (searchLoop pattern entries ([], 0))

/-! ## `printFileInfo`, POSIX branch -/

/-- File type mask of `st_mode` (`<sys/stat.h>`). -/
def S_IFMT : Nat := 0o170000
/-- File type value of a directory (`<sys/stat.h>`). -/
def S_IFDIR : Nat := 0o040000
def S_IRUSR : Nat := 0o400
def S_IWUSR : Nat := 0o200
def S_IXUSR : Nat := 0o100
def S_IRGRP : Nat := 0o040
def S_IWGRP : Nat := 0o020
def S_IXGRP : Nat := 0o010
def S_IROTH : Nat := 0o004
def S_IWOTH : Nat := 0o002
def S_IXOTH : Nat := 0o001

/-- The macro `S_ISDIR(m)`. -/
def S_ISDIR (m : Nat) : Bool :=
  (m &&& S_IFMT) = S_IFDIR

/-- The ten strings `printFileInfo` writes for the type and the permissions of a file with
mode `st_mode`, concatenated. -/
def permissionField (st_mode : Nat) : String :=
  (if S_ISDIR st_mode then "d" else "-")
    ++ (if st_mode &&& S_IRUSR ≠ 0 then "r" else "-")
    ++ (if st_mode &&& S_IWUSR ≠ 0 then "w" else "-")
    ++ (if st_mode &&& S_IXUSR ≠ 0 then "x" else "-")
    ++ (if st_mode &&& S_IRGRP ≠ 0 then "r" else "-")
    ++ (if st_mode &&& S_IWGRP ≠ 0 then "w" else "-")
    ++ (if st_mode &&& S_IXGRP ≠ 0 then "x" else "-")
    ++ (if st_mode &&& S_IROTH ≠ 0 then "r" else "-")
    ++ (if st_mode &&& S_IWOTH ≠ 0 then "w" else "-")
    ++ (if st_mode &&& S_IXOTH ≠ 0 then "x" else " ")

/-! ## The command loop of `main` -/

/-- The six member functions the loop calls, over any representation `W` of everything
they can read and change. -/
structure Explorer (W : Type) where
  changeDirectory : String → W → W
  createDirectory : String → W → W
  removeFile : String → W → W
  copyFile : String → String → W → W
  moveFile : String → String → W → W
  search : String → W → W

/-- How one pass through the loop body ends. -/
inductive Step (W : Type) where
  | exit (w : W)
  | next (w : W)

/-- The body of the `while (true)` loop after `std::getline`: the chain of prefix tests on
`command`. `none` stands for a `std::out_of_range` escaping `main`. -/
def mainBody {W : Type} (explorer : Explorer W) (command : String) (w : W) :
    Option (Step W) :=
  if command = "exit" then some (.exit w)
  else (substr command 0 3).bind fun cd =>
  if cd = "cd " then
    (substrFrom command 3).bind fun arg => some (.next (explorer.changeDirectory arg w))
  else (substr command 0 6).bind fun mkdir =>
  if mkdir = "mkdir " then
    (substrFrom command 6).bind fun arg => some (.next (explorer.createDirectory arg w))
  else (substr command 0 3).bind fun rm =>
  if rm = "rm " then
    (substrFrom command 3).bind fun arg => some (.next (explorer.removeFile arg w))
  else (substr command 0 3).bind fun cp =>
  if cp = "cp " then
    match findChar command ' ' 3 with
    | some space =>
      (substr command 3 (space - 3)).bind fun src =>
      (substrFrom command (space + 1)).bind fun dest =>
      some (.next (explorer.copyFile src dest w))
    | none => some (.next w)
  else (substr command 0 3).bind fun mv =>
  if mv = "mv " then
    match findChar command ' ' 3 with
    | some space =>
      (substr command 3 (space - 3)).bind fun src =>
      (substrFrom command (space + 1)).bind fun dest =>
      some (.next (explorer.moveFile src dest w))
    | none => some (.next w)
  else (substr command 0 7).bind fun search =>
  if search = "search " then
    (substrFrom command 7).bind fun arg => some (.next (explorer.search arg w))
  else some (.next w)

/-- An explorer that records each call it receives. -/
def recorder : Explorer (List (String × List String)) where
  changeDirectory := fun a w => w ++ [("changeDirectory", [a])]
  createDirectory := fun a w => w ++ [("createDirectory", [a])]
  removeFile := fun a w => w ++ [("removeFile", [a])]
  copyFile := fun a b w => w ++ [("copyFile", [a, b])]
  moveFile := fun a b w => w ++ [("moveFile", [a, b])]
  search := fun a w => w ++ [("search", [a])]

/-! ## Sample filesystems -/

/-- The directory `/home` holding the directories `docs` (with `docs/docs`) and `x` (with `x/keep.txt`),
and the files `foo.txt`, `barfoo`, `baz.txt`. -/
def sampleFs : FileSystem :=
  [⟨["home"], true⟩, ⟨["home", "foo.txt"], false⟩, ⟨["home", "docs"], true⟩,
   ⟨["home", "barfoo"], false⟩, ⟨["home", "baz.txt"], false⟩,
   ⟨["home", "docs", "docs"], true⟩, ⟨["home", "x"], true⟩,
   ⟨["home", "x", "keep.txt"], false⟩]

/-- An explorer positioned at `/home` of `sampleFs`, its listing up to date. -/
def sampleExplorer : FileExplorer :=
  (listDirectory sampleFs ⟨["home"], []⟩).1

/-! ## The order used by `listDirectory` -/

theorem strLess_iff_lex (a b : List Char) :
    strLess a b = true ↔ List.Lex (fun x y => x < y) a b := by
  induction a generalizing b with
  | nil =>
    cases b with
    | nil => simp [strLess]
    | cons y ys => simp [strLess, List.Lex.nil]
  | cons x xs ih =>
    cases b with
    | nil => simp [strLess]
    | cons y ys =>
      rcases lt_trichotomy x y with h | h | h
      · simp [strLess, h, List.Lex.rel h]
      · subst h
        simp [strLess, ih, List.Lex.cons_iff]
      · have h2 : ¬ x < y := not_lt_of_gt h
        simp only [strLess, h2, h, if_true, if_false]
        constructor
        · intro hc; cases hc
        · intro hl
          cases hl with
          | cons _ => exact absurd h (lt_irrefl _)
          | rel h3 => exact absurd h3 h2

/-- The comparison of the embedding is the order of Lean strings. -/
theorem strLess_iff_lt (a b : String) : strLess a.data b.data = true ↔ a < b := by
  rw [String.lt_iff_toList_lt]
  exact strLess_iff_lex a.data b.data

theorem strLess_eq_false_iff (a b : String) : strLess a.data b.data = false ↔ b ≤ a := by
  rw [← not_lt, ← strLess_iff_lt]
  simp

theorem entryLess_asymm (a b : DirEntry) (h : entryLess a b = true) : entryLess b a = false := by
  unfold entryLess at *
  cases ha : a.isDirectory <;> cases hb : b.isDirectory <;> simp [ha, hb] at h ⊢
  · rw [strLess_eq_false_iff]; exact le_of_lt ((strLess_iff_lt _ _).1 h)
  · rw [strLess_eq_false_iff]; exact le_of_lt ((strLess_iff_lt _ _).1 h)

theorem entryLess_trans (a b c : DirEntry) (hab : entryLess a b = true)
    (hbc : entryLess b c = true) : entryLess a c = true := by
  unfold entryLess at *
  cases ha : a.isDirectory <;> cases hb : b.isDirectory <;> cases hc : c.isDirectory <;>
    simp [ha, hb, hc] at hab hbc ⊢
  · rw [strLess_iff_lt] at *; exact lt_trans hab hbc
  · rw [strLess_iff_lt] at *; exact lt_trans hab hbc

/-! ## `std::sort` sorts -/

theorem insertSorted_perm {α : Type} (less : α → α → Bool) (x : α) (l : List α) :
    (insertSorted less x l).Perm (x :: l) := by
  induction l with
  | nil => exact List.Perm.refl _
  | cons y ys ih =>
    unfold insertSorted
    split
    · exact List.Perm.refl _
    · exact (List.Perm.cons y ih).trans (List.Perm.swap x y ys)

theorem stdSort_perm {α : Type} (less : α → α → Bool) (l : List α) :
    (stdSort less l).Perm l := by
  induction l with
  | nil => exact List.Perm.refl _
  | cons x xs ih =>
    exact (insertSorted_perm less x (stdSort less xs)).trans (List.Perm.cons x ih)

theorem insertSorted_pairwise {α : Type} (less : α → α → Bool)
    (asymm : ∀ a b, less a b = true → less b a = false)
    (trans : ∀ a b c, less a b = true → less b c = true → less a c = true)
    (x : α) (l : List α) (hl : l.Pairwise (fun a b => less b a = false)) :
    (insertSorted less x l).Pairwise (fun a b => less b a = false) := by
  induction l with
  | nil => simp [insertSorted]
  | cons y ys ih =>
    rw [List.pairwise_cons] at hl
    unfold insertSorted
    by_cases hxy : less x y = true
    · rw [if_pos hxy]
      refine List.pairwise_cons.2 ⟨?_, List.pairwise_cons.2 hl⟩
      intro z hz
      rcases List.mem_cons.1 hz with rfl | hz
      · exact asymm _ _ hxy
      · cases hzx : less z x with
        | false => rfl
        | true =>
          have hzy := trans z x y hzx hxy
          rw [hl.1 z hz] at hzy
          exact absurd hzy (by simp)
    · rw [if_neg hxy]
      refine List.pairwise_cons.2 ⟨?_, ih hl.2⟩
      intro z hz
      rcases List.mem_cons.1 ((insertSorted_perm less x ys).mem_iff.1 hz) with rfl | hz
      · simpa using hxy
      · exact hl.1 z hz

theorem stdSort_pairwise {α : Type} (less : α → α → Bool)
    (asymm : ∀ a b, less a b = true → less b a = false)
    (trans : ∀ a b c, less a b = true → less b c = true → less a c = true)
    (l : List α) : (stdSort less l).Pairwise (fun a b => less b a = false) := by
  induction l with
  | nil => exact List.Pairwise.nil
  | cons x xs ih => exact insertSorted_pairwise less asymm trans x (stdSort less xs) ih

/-- What "no later entry is smaller" means for the comparator of `listDirectory`. -/
theorem entryLess_eq_false (a b : DirEntry) (h : entryLess b a = false) :
    (b.isDirectory = true → a.isDirectory = true) ∧
      (a.isDirectory = b.isDirectory → filename a.path ≤ filename b.path) := by
  unfold entryLess at h
  cases ha : a.isDirectory <;> cases hb : b.isDirectory <;>
    simp only [ha, hb, bne_self_eq_false, Bool.false_eq_true, if_false, if_true, bne_iff_ne,
      ne_eq, not_false_eq_true, not_true_eq_false, Bool.true_eq_false, reduceCtorEq] at h
  · exact ⟨fun hf => hf, fun _ => (strLess_eq_false_iff _ _).1 h⟩
  · exact ⟨fun _ => rfl, fun hf => absurd hf (by simp)⟩
  · exact ⟨fun _ => rfl, fun _ => (strLess_eq_false_iff _ _).1 h⟩

theorem listDirectory_ok (fs : FileSystem) (ex : FileExplorer) (entries : List DirEntry)
    (h : directoryIterator fs ex.currentPath = .ok entries) :
    listDirectory fs ex = (⟨ex.currentPath, stdSort entryLess entries⟩, none) := by
  simp [listDirectory, h]

theorem listDirectory_error (fs : FileSystem) (ex : FileExplorer) (what : String)
    (h : directoryIterator fs ex.currentPath = .error what) :
    listDirectory fs ex = (⟨ex.currentPath, []⟩, some what) := by
  simp [listDirectory, h]

/-- C1. The listing `listDirectory` builds is sorted: no directory comes after a
non-directory, and two entries of the same kind appear in non-decreasing order of their
filenames (the order of strings, case-sensitive). The listing is a rearrangement of exactly
the children the directory iterator yields (of nothing when the iterator throws). -/
theorem listDirectory_sorted (fs : FileSystem) (ex : FileExplorer) :
    (listDirectory fs ex).1.currentEntries.Pairwise (fun a b =>
        (b.isDirectory = true → a.isDirectory = true) ∧
          (a.isDirectory = b.isDirectory → filename a.path ≤ filename b.path)) ∧
      (listDirectory fs ex).1.currentEntries.Perm
        (match directoryIterator fs ex.currentPath with
          | .ok entries => entries
          | .error _ => []) := by
  cases hit : directoryIterator fs ex.currentPath with
  | error what =>
    rw [listDirectory_error fs ex what hit]
    exact ⟨List.Pairwise.nil, List.Perm.refl _⟩
  | ok found =>
    rw [listDirectory_ok fs ex found hit]
    exact ⟨(stdSort_pairwise entryLess entryLess_asymm entryLess_trans found).imp
        (fun {a b} h => entryLess_eq_false a b h), stdSort_perm entryLess found⟩

/-! ## `search` -/

theorem startsWith_iff {α : Type} [DecidableEq α] (p s : List α) :
    startsWith p s = true ↔ p <+: s := by
  induction p generalizing s with
  | nil => simp [startsWith]
  | cons a p ih =>
    cases s with
    | nil => simp [startsWith]
    | cons c cs =>
      by_cases hac : a = c
      · subst hac
        simp [startsWith, ih, List.cons_prefix_cons]
      · simp [startsWith, hac, List.cons_prefix_cons]

/-- The scan of `find` returns a position exactly when the pattern occurs as a contiguous run. -/
theorem findStrFrom_isSome (pattern s : List Char) (i : Nat) :
    (findStrFrom pattern s i).isSome = true ↔ pattern <:+: s := by
  induction s generalizing i with
  | nil =>
    cases pattern with
    | nil => simp [findStrFrom, startsWith]
    | cons a p => simp [findStrFrom, startsWith]
  | cons c cs ih =>
    unfold findStrFrom
    by_cases hp : startsWith pattern (c :: cs) = true
    · rw [if_pos hp]
      simpa using ((startsWith_iff _ _).1 hp).isInfix
    · rw [if_neg hp, ih, List.infix_cons_iff]
      have hnp : ¬ pattern <+: c :: cs := fun h => hp ((startsWith_iff _ _).2 h)
      simp [hnp]

theorem searchLoop_eq (pattern : String) (entries : List DirEntry) (printed : List String)
    (count : Nat) :
    searchLoop pattern entries (printed, count) =
      (printed ++ (entries.filter
          (fun e => decide (pattern.data <:+: (filename e.path).data))).map
            (fun e => pathString e.path),
        count + (entries.filter
          (fun e => decide (pattern.data <:+: (filename e.path).data))).length) := by
  induction entries generalizing printed count with
  | nil => simp [searchLoop]
  | cons e es ih =>
    unfold searchLoop
    by_cases hm : pattern.data <:+: (filename e.path).data
    · have hf : (findStr (filename e.path) pattern).isSome = true :=
        (findStrFrom_isSome _ _ 0).2 hm
      rw [if_pos hf, ih]
      simp [hm, Nat.add_assoc, Nat.add_comm 1]
    · have hf : ¬ (findStr (filename e.path) pattern).isSome = true :=
        fun h => hm ((findStrFrom_isSome _ _ 0).1 h)
      rw [if_neg hf, ih]
      simp [hm]

/-- C2. When the current path is a directory, `search` returns normally, and what it
prints is the full path of exactly those objects below the current path whose filename
contains the pattern as a contiguous, case-sensitive run of characters, each once and in
walk order; the count of the final line is the number of those objects. -/
theorem search_reports (fs : FileSystem) (ex : FileExplorer) (pattern : String)
    (hdir : status fs ex.currentPath = some true) :
    search fs ex pattern =
      .ok (((descendants fs ex.currentPath).filter
          (fun e => decide (pattern.data <:+: (filename e.path).data))).map
            (fun e => pathString e.path),
        ((descendants fs ex.currentPath).filter
          (fun e => decide (pattern.data <:+: (filename e.path).data))).length) := by
  simp [search, recursiveDirectoryIterator, hdir, searchLoop_eq]

/-- C2 on the tree of the specification: below `/home`, which holds `foo.txt`, `barfoo`
and `baz.txt` among others, `search("foo")` prints `/home/foo.txt` and `/home/barfoo`,
counts 2, and does not print `/home/baz.txt`. -/
theorem search_reports_witness :
    status sampleFs sampleExplorer.currentPath = some true ∧
      search sampleFs sampleExplorer "foo" = .ok (["/home/foo.txt", "/home/barfoo"], 2) ∧
      search sampleFs sampleExplorer "foo" =
        .ok (((descendants sampleFs sampleExplorer.currentPath).filter
            (fun e => decide ("foo".data <:+: (filename e.path).data))).map
              (fun e => pathString e.path),
          ((descendants sampleFs sampleExplorer.currentPath).filter
            (fun e => decide ("foo".data <:+: (filename e.path).data))).length) :=
  ⟨by decide, by rfl, search_reports sampleFs sampleExplorer "foo" (by decide)⟩

/-! ## `changeDirectory` -/

theorem fsIsDirectory_iff (fs : FileSystem) (raw : List String) :
    fsIsDirectory fs raw = true ↔ ∃ p, resolve fs raw = some p ∧ status fs p = some true := by
  unfold fsIsDirectory
  cases resolve fs raw with
  | none => simp
  | some p => simp

theorem changeDirectory_found (fs : FileSystem) (ex : FileExplorer) (path : String) (p : Path)
    (hres : resolve fs (joinPath ex.currentPath path) = some p)
    (hdir : status fs p = some true) :
    changeDirectory fs ex path = ⟨fs, ⟨p, stdSort entryLess (children fs p)⟩, [], none⟩ := by
  have hex : fsExists fs (joinPath ex.currentPath path) = true := by simp [fsExists, hres]
  have hisd : fsIsDirectory fs (joinPath ex.currentPath path) = true :=
    (fsIsDirectory_iff _ _).2 ⟨p, hres, hdir⟩
  have hl : listDirectory fs { ex with currentPath := p } =
      (⟨p, stdSort entryLess (children fs p)⟩, none) :=
    listDirectory_ok fs _ _ (by simp [directoryIterator, hdir])
  simp [changeDirectory, hex, hisd, canonical, hres, hl]

theorem changeDirectory_missing (fs : FileSystem) (ex : FileExplorer) (path : String)
    (h : ¬ (fsExists fs (joinPath ex.currentPath path) = true ∧
      fsIsDirectory fs (joinPath ex.currentPath path) = true)) :
    changeDirectory fs ex path = ⟨fs, ex, ["Directory not found: " ++ path], none⟩ := by
  unfold changeDirectory
  simp only [Bool.and_eq_true]
  rw [if_neg h]

theorem joinPath_absolute (cur other : Path) (path : String)
    (habs : path.data.head? = some '/') : joinPath cur path = joinPath other path := by
  simp [joinPath, habs]

theorem removeFile_of_missing (fs : FileSystem) (ex : FileExplorer) (name : String)
    (hmissing : fsExists fs (joinPath ex.currentPath name) = false)
    (hfree : blockedByFile fs (some []) (joinPath ex.currentPath name) = false) :
    removeFile fs ex name =
      match listDirectory fs ex with
      | (ex1, none) => ⟨fs, ex1, [], none⟩
      | (ex1, some what) => ⟨fs, ex1, ["Error removing: " ++ what], none⟩ := by
  have hres : resolve fs (joinPath ex.currentPath name) = none := by
    simpa [fsExists] using hmissing
  simp [removeFile, fsIsDirectory, removeFs, hres, hfree]

theorem removeFile_of_blocked (fs : FileSystem) (ex : FileExplorer) (name : String)
    (hmissing : fsExists fs (joinPath ex.currentPath name) = false)
    (hblocked : blockedByFile fs (some []) (joinPath ex.currentPath name) = true) :
    removeFile fs ex name =
      ⟨fs, ex, ["Error removing: filesystem error: cannot remove: Not a directory"], none⟩ := by
  have hres : resolve fs (joinPath ex.currentPath name) = none := by
    simpa [fsExists] using hmissing
  simp [removeFile, fsIsDirectory, removeFs, hres, hblocked]

theorem contained_of_operation (label : String) (ex : FileExplorer) (fs1 : FileSystem)
    (thrown : Option String) :
    Contained ex
      (match (fs1, thrown) with
        | (fs1, some what) => ⟨fs1, ex, [label ++ what], none⟩
        | (fs1, none) =>
          match listDirectory fs1 ex with
          | (ex1, none) => ⟨fs1, ex1, [], none⟩
          | (ex1, some what) => ⟨fs1, ex1, [label ++ what], none⟩) := by
  cases thrown with
  | some what => exact ⟨rfl, rfl, Or.inr (Or.inl ⟨rfl, rfl⟩)⟩
  | none =>
    by_cases hcur : status fs1 ex.currentPath = some true
    · have hl := listDirectory_ok fs1 ex (children fs1 ex.currentPath)
        (by simp [directoryIterator, hcur])
      simp only [hl]
      exact ⟨rfl, rfl, Or.inl ⟨rfl, hl⟩⟩
    · have hl := listDirectory_error fs1 ex
        "filesystem error: directory iterator cannot open directory"
        (by simp [directoryIterator, hcur])
      simp only [hl]
      exact ⟨rfl, rfl, Or.inr (Or.inr ⟨rfl, rfl, hcur⟩)⟩

theorem createDirectory_contained (fs : FileSystem) (ex : FileExplorer) (name : String) :
    Contained ex (createDirectory fs ex name) := by
  unfold createDirectory
  cases hmk : createDirectoryFs fs (joinPath ex.currentPath name) with
  | error what => exact ⟨rfl, rfl, Or.inr (Or.inl ⟨rfl, rfl⟩)⟩
  | ok made =>
    obtain ⟨fs1, flag⟩ := made
    exact contained_of_operation "Error creating directory: " ex fs1 none

theorem removeFile_contained (fs : FileSystem) (ex : FileExplorer) (name : String) :
    Contained ex (removeFile fs ex name) := by
  unfold removeFile
  exact contained_of_operation "Error removing: " ex _ _

theorem copyFile_contained (ops : CopyMoveOps) (fs : FileSystem) (ex : FileExplorer)
    (src dest : String) : Contained ex (copyFile ops fs ex src dest) := by
  unfold copyFile
  exact contained_of_operation "Error copying: " ex _ _

theorem moveFile_contained (ops : CopyMoveOps) (fs : FileSystem) (ex : FileExplorer)
    (src dest : String) : Contained ex (moveFile ops fs ex src dest) := by
  unfold moveFile
  exact contained_of_operation "Error moving: " ex _ _

theorem findCharFrom_none (ch : Char) (l : List Char) (i : Nat) (h : ch ∉ l) :
    findCharFrom ch l i = none := by
  induction l generalizing i with
  | nil => rfl
  | cons c cs ih =>
    have hc : ¬ c = ch := fun e => h (by simp [e])
    have hcs : ch ∉ cs := fun e => h (by simp [e])
    simp [findCharFrom, hc, ih _ hcs]

theorem findCharFrom_split (ch : Char) (l : List Char) (i : Nat) (h : ch ∈ l) :
    ∃ pre post, l = pre ++ ch :: post ∧ ch ∉ pre ∧
      findCharFrom ch l i = some (i + pre.length) := by
  induction l generalizing i with
  | nil => simp at h
  | cons c cs ih =>
    by_cases hc : c = ch
    · subst hc
      exact ⟨[], cs, rfl, by simp, by simp [findCharFrom]⟩
    · have hcs : ch ∈ cs := by
        rcases List.mem_cons.1 h with e | e
        · exact absurd e.symm hc
        · exact e
      obtain ⟨pre, post, hl, hpre, hfind⟩ := ih (i + 1) hcs
      refine ⟨c :: pre, post, by simp [hl], ?_, ?_⟩
      · simp [hpre, Ne.symm hc]
      · simp [findCharFrom, hc, hfind]; omega

theorem data_take_three (command : String) (a b c : Char)
    (h : command.data.take 3 = [a, b, c]) :
    ∃ rest, command = ⟨a :: b :: c :: rest⟩ := by
  obtain ⟨cs⟩ := command
  match cs, h with
  | x :: y :: z :: rest, h =>
    simp at h
    obtain ⟨rfl, rfl, rfl⟩ := h
    exact ⟨rest, rfl⟩

theorem mainBody_cp {W : Type} (explorer : Explorer W) (w : W) (rest : List Char) :
    mainBody explorer ⟨'c' :: 'p' :: ' ' :: rest⟩ w =
      match findCharFrom ' ' rest 3 with
      | some space =>
        (substrFrom ⟨'c' :: 'p' :: ' ' :: rest⟩ (space + 1)).bind fun dest =>
          some (.next (explorer.copyFile ⟨rest.take (space - 3)⟩ dest w))
      | none => some (.next w) := by
  have h0 : (⟨'c' :: 'p' :: ' ' :: rest⟩ : String) ≠ "exit" := by
    intro h; have := congrArg String.data h; simp at this
  have h3 : substr ⟨'c' :: 'p' :: ' ' :: rest⟩ 0 3 = some "cp " := by
    simp [substr]
  have h6 : ∀ l, (⟨'c' :: 'p' :: ' ' :: l⟩ : String) ≠ "mkdir " := by
    intro l h; have := congrArg String.data h; simp at this
  have hf : findChar ⟨'c' :: 'p' :: ' ' :: rest⟩ ' ' 3 = findCharFrom ' ' rest 3 := by
    simp [findChar]
  unfold mainBody
  rw [if_neg h0, hf]
  simp [h3, substr, h6]

theorem mainBody_mv {W : Type} (explorer : Explorer W) (w : W) (rest : List Char) :
    mainBody explorer ⟨'m' :: 'v' :: ' ' :: rest⟩ w =
      match findCharFrom ' ' rest 3 with
      | some space =>
        (substrFrom ⟨'m' :: 'v' :: ' ' :: rest⟩ (space + 1)).bind fun dest =>
          some (.next (explorer.moveFile ⟨rest.take (space - 3)⟩ dest w))
      | none => some (.next w) := by
  have h0 : (⟨'m' :: 'v' :: ' ' :: rest⟩ : String) ≠ "exit" := by
    intro h; have := congrArg String.data h; simp at this
  have h3 : substr ⟨'m' :: 'v' :: ' ' :: rest⟩ 0 3 = some "mv " := by
    simp [substr]
  have h6 : ∀ l, (⟨'m' :: 'v' :: ' ' :: l⟩ : String) ≠ "mkdir " := by
    intro l h; have := congrArg String.data h; simp at this
  have hf : findChar ⟨'m' :: 'v' :: ' ' :: rest⟩ ' ' 3 = findCharFrom ' ' rest 3 := by
    simp [findChar]
  unfold mainBody
  rw [if_neg h0, hf]
  simp [h3, substr, h6]

theorem substrFrom_after (a b c : Char) (pre post : List Char) :
    substrFrom ⟨a :: b :: c :: (pre ++ ' ' :: post)⟩ (3 + pre.length + 1) = some ⟨post⟩ := by
  have hsplit : a :: b :: c :: (pre ++ ' ' :: post) = (a :: b :: c :: pre ++ [' ']) ++ post := by
    simp
  have hlen : (a :: b :: c :: pre ++ [' ']).length = 3 + pre.length + 1 := by
    simp; omega
  unfold substrFrom
  rw [if_pos (by simp; omega)]
  simp only [hsplit, List.drop_left' hlen]

/-- C4. A command line that starts with `cp ` and has no space after these three
characters makes the loop body call none of the six operations: whatever they are, the
state they act on (filesystem, Current Path, listing) comes back as it went in, no
exception occurs, and the loop goes on to its next pass. -/
theorem cp_without_destination {W : Type} (explorer : Explorer W) (w : W) (command : String)
    (hcp : command.data.take 3 = "cp ".data) (hnone : ' ' ∉ command.data.drop 3) :
    mainBody explorer command w = some (.next w) := by
  obtain ⟨rest, rfl⟩ := data_take_three command 'c' 'p' ' ' hcp
  have hrest : ' ' ∉ rest := by simpa using hnone
  rw [mainBody_cp, findCharFrom_none ' ' rest 3 hrest]

/-- C4 at the command line `cp a.txt`, with the explorer that records its calls: no call
is recorded. -/
theorem cp_without_destination_witness :
    "cp a.txt".data.take 3 = "cp ".data ∧ ' ' ∉ "cp a.txt".data.drop 3 ∧
      mainBody recorder "cp a.txt" [] = some (.next []) :=
  ⟨by decide, by decide, cp_without_destination recorder [] "cp a.txt" (by decide) (by decide)⟩

/-- C5. A command line that starts with `cp ` (respectively `mv `) and has a space after
these three characters makes the loop body call `copyFile` (respectively `moveFile`) once,
with two arguments `src` and `dest` such that `src` contains no space and the command line
is the three-character verb, `src`, one space and `dest`, in this order; so `src` is the
text up to the first space of the remainder and `dest` is everything after that space. -/
theorem cp_mv_split {W : Type} (explorer : Explorer W) (w : W) (command : String)
    (hverb : command.data.take 3 = "cp ".data ∨ command.data.take 3 = "mv ".data)
    (hspace : ' ' ∈ command.data.drop 3) :
    ∃ src dest : String,
      ' ' ∉ src.data ∧
      command = ⟨command.data.take 3⟩ ++ src ++ " " ++ dest ∧
      mainBody explorer command w = some (.next
        (if command.data.take 3 = "cp ".data then explorer.copyFile src dest w
         else explorer.moveFile src dest w)) := by
  rcases hverb with hcp | hmv
  · obtain ⟨rest, rfl⟩ := data_take_three command 'c' 'p' ' ' hcp
    have hrest : ' ' ∈ rest := by simpa using hspace
    obtain ⟨pre, post, hl, hpre, hfind⟩ := findCharFrom_split ' ' rest 3 hrest
    subst hl
    refine ⟨⟨pre⟩, ⟨post⟩, hpre, ?_, ?_⟩
    · apply String.ext; simp
    · rw [mainBody_cp, hfind]
      simp only [substrFrom_after, Option.some_bind, Nat.add_sub_cancel_left,
        List.take_left']
      rw [if_pos hcp]
  · obtain ⟨rest, rfl⟩ := data_take_three command 'm' 'v' ' ' hmv
    have hrest : ' ' ∈ rest := by simpa using hspace
    obtain ⟨pre, post, hl, hpre, hfind⟩ := findCharFrom_split ' ' rest 3 hrest
    subst hl
    refine ⟨⟨pre⟩, ⟨post⟩, hpre, ?_, ?_⟩
    · apply String.ext; simp
    · rw [mainBody_mv, hfind]
      simp only [substrFrom_after, Option.some_bind, Nat.add_sub_cancel_left,
        List.take_left']
      rw [if_neg (by simp)]


/-- C5 at the command lines `cp a b c` and `mv old new`, with the explorer that records
its calls: `copyFile("a", "b c")`, respectively `moveFile("old", "new")`, is the one call
made. -/
theorem cp_mv_split_witness :
    ("cp a b c".data.take 3 = "cp ".data ∨ "cp a b c".data.take 3 = "mv ".data) ∧
      ' ' ∈ "cp a b c".data.drop 3 ∧
      mainBody recorder "cp a b c" [] = some (.next [("copyFile", ["a", "b c"])]) ∧
      mainBody recorder "mv old new" [] = some (.next [("moveFile", ["old", "new"])]) ∧
      ∃ src dest : String,
        ' ' ∉ src.data ∧
        "cp a b c" = ⟨"cp a b c".data.take 3⟩ ++ src ++ " " ++ dest ∧
        mainBody recorder "cp a b c" [] = some (.next
          (if "cp a b c".data.take 3 = "cp ".data then recorder.copyFile src dest []
           else recorder.moveFile src dest [])) :=
  ⟨by decide, by decide, by rfl, by rfl,
    cp_mv_split recorder [] "cp a b c" (Or.inl (by decide)) (by decide)⟩

/-! ## `createDirectory` followed by `removeFile` -/

theorem resolve_append (fs : FileSystem) (raw : List String) (c : String) :
    resolve fs (raw ++ [c]) = lookupStep fs (resolve fs raw) c := by
  simp [resolve, List.foldl_append]

theorem status_eq_none_iff (fs : FileSystem) (p : Path) :
    status fs p = none ↔ p ≠ [] ∧ ∀ e ∈ fs, e.path ≠ p := by
  unfold status
  by_cases hp : p = []
  · simp [hp]
  · simp [hp, List.find?_eq_none]

theorem status_append (fs : FileSystem) (e : DirEntry) (p : Path) (b : Bool)
    (h : status fs p = some b) : status (fs ++ [e]) p = some b := by
  unfold status at *
  by_cases hp : p = []
  · simpa [hp] using h
  · simp only [hp, if_false] at h ⊢
    cases hf : fs.find? (fun e => decide (e.path = p)) with
    | none => simp [hf] at h
    | some x => simp [hf, List.find?_append] at h ⊢; exact h

theorem status_append_new (fs : FileSystem) (p : Path) (b : Bool)
    (h : status fs p = none) : status (fs ++ [⟨p, b⟩]) p = some b := by
  obtain ⟨hp, hall⟩ := (status_eq_none_iff fs p).1 h
  have hf : fs.find? (fun e => decide (e.path = p)) = none := by
    simp [List.find?_eq_none]; exact hall
  simp [status, hp, List.find?_append, hf]

theorem lookupStep_append (fs : FileSystem) (e : DirEntry) (q : Option Path) (c : String)
    (p : Path) (h : lookupStep fs q c = some p) : lookupStep (fs ++ [e]) q c = some p := by
  cases q with
  | none => simp [lookupStep] at h
  | some q =>
    simp only [lookupStep, Option.some_bind] at h ⊢
    by_cases hq : status fs q = some true
    · rw [if_pos hq] at h
      rw [if_pos (status_append fs e q true hq)]
      by_cases h1 : c = "" ∨ c = "."
      · rw [if_pos h1] at h ⊢; exact h
      · rw [if_neg h1] at h ⊢
        by_cases h2 : c = ".."
        · rw [if_pos h2] at h ⊢; exact h
        · rw [if_neg h2] at h ⊢
          by_cases h3 : (status fs (q ++ [c])).isSome = true
          · rw [if_pos h3] at h
            obtain ⟨b, hb⟩ := Option.isSome_iff_exists.1 h3
            have h4 : (status (fs ++ [e]) (q ++ [c])).isSome = true := by
              rw [status_append fs e _ b hb]; rfl
            rw [if_pos h4]; exact h
          · rw [if_neg h3] at h; cases h
    · rw [if_neg hq] at h; cases h

theorem foldl_lookupStep_none (fs : FileSystem) (raw : List String) :
    raw.foldl (lookupStep fs) none = none := by
  induction raw with
  | nil => rfl
  | cons c cs ih => simpa [lookupStep] using ih

theorem foldl_lookupStep_append (fs : FileSystem) (e : DirEntry) (raw : List String)
    (q : Option Path) (p : Path) (h : raw.foldl (lookupStep fs) q = some p) :
    raw.foldl (lookupStep (fs ++ [e])) q = some p := by
  induction raw generalizing q with
  | nil => simpa using h
  | cons c cs ih =>
    simp only [List.foldl_cons] at h ⊢
    cases hstep : lookupStep fs q c with
    | none => rw [hstep, foldl_lookupStep_none] at h; cases h
    | some q1 =>
      rw [lookupStep_append fs e q c q1 hstep]
      rw [hstep] at h
      exact ih _ h

theorem resolve_append_entry (fs : FileSystem) (e : DirEntry) (raw : List String) (p : Path)
    (h : resolve fs raw = some p) : resolve (fs ++ [e]) raw = some p :=
  foldl_lookupStep_append fs e raw _ p h

theorem filename_append (cur : Path) (name : String) : filename (cur ++ [name]) = name := by
  induction cur with
  | nil => rfl
  | cons c cs ih =>
    cases cs with
    | nil => rfl
    | cons d ds => simpa [filename] using ih

theorem lookupStep_plain (fs : FileSystem) (cur : Path) (name : String)
    (hcur : status fs cur = some true) (hne : name ≠ "") (hdot : name ≠ ".")
    (hdotdot : name ≠ "..") :
    lookupStep fs (some cur) name =
      if (status fs (cur ++ [name])).isSome then some (cur ++ [name]) else none := by
  simp [lookupStep, hcur, hne, hdot, hdotdot]

theorem status_filter (fs : FileSystem) (keep : DirEntry → Bool) (p : Path)
    (h : ∀ e ∈ fs, e.path = p → keep e = true) :
    status (fs.filter keep) p = status fs p := by
  unfold status
  by_cases hp : p = []
  · simp [hp]
  · simp only [hp, if_false]
    congr 1
    induction fs with
    | nil => rfl
    | cons e es ih =>
      have ih2 := ih (fun x hx => h x (List.mem_cons_of_mem _ hx))
      by_cases hk : keep e = true
      · simp only [List.filter_cons, hk, if_true, List.find?_cons]
        rw [ih2]
      · have hpe : ¬ e.path = p := fun he => hk (h e (List.mem_cons_self _ _) he)
        simp only [List.filter_cons, hk, List.find?_cons, hpe, decide_False]
        simpa using ih2

theorem listDirectory_fixed (fs : FileSystem) (ex : FileExplorer)
    (hsync : listDirectory fs ex = (ex, none)) :
    status fs ex.currentPath = some true ∧
      ex = ⟨ex.currentPath, stdSort entryLess (children fs ex.currentPath)⟩ := by
  by_cases hcur : status fs ex.currentPath = some true
  · rw [listDirectory_ok fs ex (children fs ex.currentPath)
      (by simp [directoryIterator, hcur])] at hsync
    exact ⟨hcur, (congrArg Prod.fst hsync).symm⟩
  · rw [listDirectory_error fs ex _ (by simp [directoryIterator, hcur]; rfl)] at hsync
    exact absurd (congrArg Prod.snd hsync) (by simp)

/-- Resolution never yields a path longer than what it has walked. -/
theorem foldl_lookupStep_length (fs : FileSystem) (raw : List String) (q p : Path)
    (h : raw.foldl (lookupStep fs) (some q) = some p) : p.length ≤ q.length + raw.length := by
  induction raw generalizing q with
  | nil =>
    simp only [List.foldl_nil, Option.some.injEq] at h
    subst h
    simp
  | cons c cs ih =>
    simp only [List.foldl_cons] at h
    cases hstep : lookupStep fs (some q) c with
    | none => rw [hstep, foldl_lookupStep_none] at h; cases h
    | some q1 =>
      rw [hstep] at h
      have hlen := ih q1 h
      have hq1 : q1.length ≤ q.length + 1 := by
        simp only [lookupStep, Option.some_bind] at hstep
        split at hstep
        · split at hstep
          · cases hstep; omega
          · split at hstep
            · cases hstep; simp; omega
            · split at hstep
              · cases hstep; simp
              · cases hstep
        · cases hstep
      simp only [List.length_cons]
      omega

/-- A path that resolves to itself has every ancestor present. -/
theorem resolve_self_ancestors (fs : FileSystem) (cur : Path)
    (hpos : resolve fs cur = some cur) :
    ∀ q, q <+: cur → status fs q ≠ none := by
  induction cur using List.reverseRecOn with
  | nil =>
    intro q hq
    have hq0 : q = [] := List.prefix_nil.1 hq
    subst hq0
    simp [status]
  | append_singleton init c ih =>
    rw [resolve_append] at hpos
    cases hinit : resolve fs init with
    | none => rw [hinit] at hpos; simp [lookupStep] at hpos
    | some p1 =>
      rw [hinit] at hpos
      have hlen : p1.length ≤ init.length := by
        have := foldl_lookupStep_length fs init [] p1 hinit
        simpa using this
      simp only [lookupStep, Option.some_bind] at hpos
      split at hpos
      · split at hpos
        · have := congrArg List.length (Option.some.inj hpos)
          simp at this; omega
        · split at hpos
          · have := congrArg List.length (Option.some.inj hpos)
            simp at this; omega
          · split at hpos
            · rename_i hsome
              have heq := Option.some.inj hpos
              have hp1 : p1 = init := List.append_inj_left' heq rfl
              subst hp1
              intro q hq
              rcases List.prefix_concat_iff.1 hq with rfl | hq
              · intro hnone
                rw [hnone] at hsome
                simp at hsome
              · exact ih hinit q hq
            · cases hpos
      · cases hpos

theorem foldl_lookupStep_trailing (fs : FileSystem) (p : Path) (k : Nat)
    (hdir : status fs p = some true) :
    (List.replicate k "").foldl (lookupStep fs) (some p) = some p := by
  induction k with
  | zero => rfl
  | succ k ih =>
    simp only [List.replicate_succ, List.foldl_cons]
    have hstep : lookupStep fs (some p) "" = some p := by simp [lookupStep, hdir]
    rw [hstep, ih]

theorem dropWhile_empty_split (l : List String) :
    ∃ k, l = List.replicate k "" ++ l.dropWhile (fun c => decide (c = "")) := by
  induction l with
  | nil => exact ⟨0, rfl⟩
  | cons x xs ih =>
    by_cases hx : x = ""
    · obtain ⟨k, hk⟩ := ih
      refine ⟨k + 1, ?_⟩
      simp only [List.dropWhile_cons, hx, decide_True, if_true, List.replicate_succ,
        List.cons_append]
      rw [← hk]
    · exact ⟨0, by simp [List.dropWhile_cons, hx]⟩

theorem dropTrailingSlashes_split (raw : List String) :
    ∃ k, raw = dropTrailingSlashes raw ++ List.replicate k "" := by
  obtain ⟨k, hk⟩ := dropWhile_empty_split raw.reverse
  refine ⟨k, ?_⟩
  have := congrArg List.reverse hk
  simpa [dropTrailingSlashes] using this

theorem filename_split (l : Path) (h : filename l ≠ "") : l = l.dropLast ++ [filename l] := by
  induction l with
  | nil => exact absurd rfl h
  | cons c cs ih =>
    cases cs with
    | nil => rfl
    | cons d ds =>
      have hd : filename (d :: ds) ≠ "" := by simpa [filename] using h
      have := ih hd
      simp only [filename, List.dropLast_cons₂, List.cons_append]
      rw [← this]

theorem children_after_removal (fs : FileSystem) (cur p : Path)
    (hnone : status fs p = none) (hcur : ¬ p <+: cur) :
    children ((fs ++ [(⟨p, true⟩ : DirEntry)]).filter
        (fun e => !(startsWith p e.path))) cur = children fs cur := by
  obtain ⟨_, hall⟩ := (status_eq_none_iff fs _).1 hnone
  have hnew : startsWith p p = true := (startsWith_iff p p).2 (List.prefix_refl p)
  simp only [children, List.filter_append, List.filter_cons, List.filter_nil, hnew,
    Bool.not_true, List.append_nil, List.filter_filter]
  rw [if_neg (by simp), List.filter_nil, List.append_nil]
  apply List.filter_congr
  intro e he
  by_cases hc : e.path ≠ [] ∧ e.path.dropLast = cur
  · obtain ⟨last, hpath⟩ : ∃ last, e.path = cur ++ [last] := by
      obtain ⟨hne, hdrop⟩ := hc
      have hsplit := (List.dropLast_append_getLast hne).symm
      rw [hdrop] at hsplit
      exact ⟨_, hsplit⟩
    have hns : startsWith p e.path = false := by
      cases hs : startsWith p e.path with
      | false => rfl
      | true =>
        rw [startsWith_iff, hpath] at hs
        rcases List.prefix_concat_iff.1 hs with heq | hpre
        · exact absurd (hpath.trans heq.symm) (hall e he)
        · exact absurd hpre hcur
    simp [hc, hns]
  · simp [hc]

/-- What `fs::create_directory` can do to a path that does not exist: fail and leave the
filesystem alone, or add one directory under an existing parent. -/
theorem createDirectoryFs_missing (fs : FileSystem) (raw : List String)
    (hres : resolve fs raw = none) :
    (∃ what, createDirectoryFs fs raw = .error what) ∨
      ∃ parent name, createDirectoryFs fs raw = .ok (fs ++ [⟨parent ++ [name], true⟩], true) ∧
        resolve fs (dropTrailingSlashes raw).dropLast = some parent ∧
        dropTrailingSlashes raw = (dropTrailingSlashes raw).dropLast ++ [name] ∧
        status fs parent = some true ∧ name ≠ "" ∧ name ≠ "." ∧ name ≠ ".." ∧
        status fs (parent ++ [name]) = none := by
  unfold createDirectoryFs
  simp only [hres]
  cases hpar : resolve fs (dropTrailingSlashes raw).dropLast with
  | none => exact Or.inl ⟨_, rfl⟩
  | some parent =>
    simp only []
    split
    · rename_i hcond
      obtain ⟨h1, h2, h3, h4, h5⟩ := hcond
      exact Or.inr ⟨parent, filename (dropTrailingSlashes raw), rfl, rfl,
        filename_split _ h2, h1, h2, h3, h4, h5⟩
    · exact Or.inl ⟨_, rfl⟩

theorem removeFile_of_directory (fs : FileSystem) (ex : FileExplorer) (name : String)
    (p : Path) (hres : resolve fs (joinPath ex.currentPath name) = some p)
    (hdir : status fs p = some true) (hp : p ≠ [])
    (hend : endsInDot (joinPath ex.currentPath name) = false)
    (hkeep : status (fs.filter (fun e => !(startsWith p e.path))) ex.currentPath = some true) :
    removeFile fs ex name =
      ⟨fs.filter (fun e => !(startsWith p e.path)),
        ⟨ex.currentPath, stdSort entryLess
          (children (fs.filter (fun e => !(startsWith p e.path))) ex.currentPath)⟩,
        [], none⟩ := by
  have hisd : fsIsDirectory fs (joinPath ex.currentPath name) = true :=
    (fsIsDirectory_iff _ _).2 ⟨p, hres, hdir⟩
  have hrm : removeAllFs fs (joinPath ex.currentPath name) =
      (fs.filter (fun e => !(startsWith p e.path)), none) := by
    simp [removeAllFs, hres, hdir, hend, hp]
  have hl := listDirectory_ok (fs.filter (fun e => !(startsWith p e.path))) ex
    (children (fs.filter (fun e => !(startsWith p e.path))) ex.currentPath)
    (by simp only [directoryIterator, hkeep, if_true])
  simp only [removeFile, hisd, if_true, hrm, hl]

/-- C7, as amended. Let Current Path be an existing directory whose listing is up to date,
and let `name` be a name that does not exist under Current Path. Then after
`createDirectory(name)` followed by `removeFile(name)` the explorer has the very path and
listing it had before the two calls. -/
theorem createDirectory_removeFile_round_trip (fs : FileSystem) (ex : FileExplorer)
    (name : String)
    (hpos : resolve fs ex.currentPath = some ex.currentPath)
    (hsync : listDirectory fs ex = (ex, none))
    (hfresh : fsExists fs (joinPath ex.currentPath name) = false) :
    (removeFile (createDirectory fs ex name).fs (createDirectory fs ex name).explorer
      name).explorer = ex := by
  obtain ⟨hcur, hex⟩ := listDirectory_fixed fs ex hsync
  have hres : resolve fs (joinPath ex.currentPath name) = none := by
    simpa [fsExists] using hfresh
  rcases createDirectoryFs_missing fs _ hres with
    ⟨what, hmk⟩ | ⟨parent, nm, hmk, hpar, hsplit, hpd, hne, hdot, hdd, hnone⟩
  · have hc : createDirectory fs ex name =
        ⟨fs, ex, ["Error creating directory: " ++ what], none⟩ := by
      simp [createDirectory, hmk]
    rw [hc]
    simp only []
    cases hblocked : blockedByFile fs (some []) (joinPath ex.currentPath name) with
    | true => rw [removeFile_of_blocked fs ex name hfresh hblocked]
    | false => rw [removeFile_of_missing fs ex name hfresh hblocked, hsync]
  · have hl := listDirectory_ok (fs ++ [⟨parent ++ [nm], true⟩]) ex
      (children (fs ++ [⟨parent ++ [nm], true⟩]) ex.currentPath)
      (by simp [directoryIterator, status_append fs _ _ true hcur])
    have hc : createDirectory fs ex name =
        ⟨fs ++ [⟨parent ++ [nm], true⟩],
          ⟨ex.currentPath, stdSort entryLess
            (children (fs ++ [⟨parent ++ [nm], true⟩]) ex.currentPath)⟩, [], none⟩ := by
      simp [createDirectory, hmk, hl]
    rw [hc]
    simp only []
    obtain ⟨k, hk⟩ := dropTrailingSlashes_split (joinPath ex.currentPath name)
    have hnew : status (fs ++ [⟨parent ++ [nm], true⟩]) (parent ++ [nm]) = some true :=
      status_append_new fs _ true hnone
    have hres1 : resolve (fs ++ [⟨parent ++ [nm], true⟩]) (joinPath ex.currentPath name) =
        some (parent ++ [nm]) := by
      have hraw : joinPath ex.currentPath name =
          ((dropTrailingSlashes (joinPath ex.currentPath name)).dropLast ++ [nm]) ++
            List.replicate k "" := by
        rw [← hsplit]; exact hk
      rw [hraw]
      unfold resolve
      rw [List.foldl_append]
      have hstep : List.foldl (lookupStep (fs ++ [⟨parent ++ [nm], true⟩])) (some [])
          ((dropTrailingSlashes (joinPath ex.currentPath name)).dropLast ++ [nm]) =
          some (parent ++ [nm]) := by
        have := resolve_append (fs ++ [⟨parent ++ [nm], true⟩])
          (dropTrailingSlashes (joinPath ex.currentPath name)).dropLast nm
        unfold resolve at this
        rw [this]
        have hpar1 := resolve_append_entry fs ⟨parent ++ [nm], true⟩ _ _ hpar
        unfold resolve at hpar1
        rw [hpar1, lookupStep_plain _ _ nm (status_append fs _ _ true hpd) hne hdot hdd, hnew]
        rfl
      rw [hstep]
      exact foldl_lookupStep_trailing _ _ k hnew
    have hend : endsInDot (joinPath ex.currentPath name) = false := by
      have hfile : filename (dropTrailingSlashes (joinPath ex.currentPath name)) = nm := by
        rw [hsplit, filename_append]
      simp [endsInDot, hfile, hdot, hdd]
    have hnp : ¬ (parent ++ [nm]) <+: ex.currentPath :=
      fun hpre => resolve_self_ancestors fs ex.currentPath hpos _ hpre hnone
    have hkeep : status ((fs ++ [(⟨parent ++ [nm], true⟩ : DirEntry)]).filter
        (fun e => !(startsWith (parent ++ [nm]) e.path))) ex.currentPath = some true := by
      rw [status_filter _ _ _ (fun e _ he => by
        have hns : startsWith (parent ++ [nm]) ex.currentPath = false := by
          cases hs : startsWith (parent ++ [nm]) ex.currentPath with
          | false => rfl
          | true => exact absurd ((startsWith_iff _ _).1 hs) hnp
        simp [he, hns])]
      exact status_append fs _ _ true hcur
    have hrm := removeFile_of_directory (fs ++ [(⟨parent ++ [nm], true⟩ : DirEntry)])
      (⟨ex.currentPath, stdSort entryLess
        (children (fs ++ [(⟨parent ++ [nm], true⟩ : DirEntry)]) ex.currentPath)⟩ :
          FileExplorer)
      name (parent ++ [nm]) hres1 hnew (by simp) hend hkeep
    rw [hrm]
    simp only [children_after_removal fs ex.currentPath (parent ++ [nm]) hnone hnp]
    exact hex.symm

/-- C7 at a concrete input: in `/home`, `mkdir new` and then `rm new`; the new directory
is listed in between. -/
theorem createDirectory_removeFile_round_trip_witness :
    resolve sampleFs sampleExplorer.currentPath = some sampleExplorer.currentPath ∧
      listDirectory sampleFs sampleExplorer = (sampleExplorer, none) ∧
      fsExists sampleFs (joinPath sampleExplorer.currentPath "new") = false ∧
      (⟨["home", "new"], true⟩ : DirEntry) ∈
        (createDirectory sampleFs sampleExplorer "new").explorer.currentEntries ∧
      (removeFile (createDirectory sampleFs sampleExplorer "new").fs
        (createDirectory sampleFs sampleExplorer "new").explorer "new").explorer =
          sampleExplorer :=
  ⟨by decide, by decide, by decide, by decide,
    createDirectory_removeFile_round_trip sampleFs sampleExplorer "new" (by decide) (by decide)
      (by decide)⟩

/-- C7 as stated fails when the name already exists. `/home/x` is a directory, listed by
the explorer. `createDirectory("x")` leaves it alone and reports nothing; `removeFile("x")`
then removes it and reports nothing; the listing ends without `x`, unlike the listing
before the two calls. -/
theorem createDirectory_removeFile_existing :
    (⟨["home", "x"], true⟩ : DirEntry) ∈ sampleExplorer.currentEntries ∧
      (createDirectory sampleFs sampleExplorer "x").cerr = [] ∧
      (removeFile (createDirectory sampleFs sampleExplorer "x").fs
        (createDirectory sampleFs sampleExplorer "x").explorer "x").cerr = [] ∧
      (⟨["home", "x"], true⟩ : DirEntry) ∉
        (removeFile (createDirectory sampleFs sampleExplorer "x").fs
          (createDirectory sampleFs sampleExplorer "x").explorer "x").explorer.currentEntries ∧
      (removeFile (createDirectory sampleFs sampleExplorer "x").fs
        (createDirectory sampleFs sampleExplorer "x").explorer "x").explorer.currentEntries ≠
          sampleExplorer.currentEntries := by
  decide

/-- C10 fails on the code. For a regular file of mode `0644` the field `printFileInfo`
writes is `-rw-r--r- `: its tenth character, for the cleared execute bit of "other", is a
blank where the claim has `-`. -/
theorem permissionField_regular_0644 :
    permissionField 0o100644 = "-rw-r--r- " ∧
      (permissionField 0o100644).data.length = 10 ∧
      0o100644 &&& S_IXOTH = 0 ∧
      (permissionField 0o100644).data.getLast? = some ' ' ∧
      (permissionField 0o100644).data.getLast? ≠ some '-' := by
  decide

end TerminalExplorer
